import Mathlib

/-!
Verification of the polymarket trading bot's decision-and-accounting core.

The Python source is embedded shallowly:
* floats become exact rationals (`ℚ`), with the source's literal epsilon
  tolerances (`1e-9`, `1e-6`, `1e-12`) kept as exact rational constants;
* an order-book level (an arbitrary JSON object in the source) becomes a
  structure of two optional rationals: `none` models a missing or
  non-numeric field (the source's `safe_float` returning `None`);
* the stateful walk loops of `vwap_cents_for_shares` / `vwap_cents_for_usd`
  become structural recursions carrying the loop accumulators.
-/

namespace Polybot

/-- One ask level as the estimators see it: `price`/`size` are `none` when the
field is missing or `safe_float` failed on it (source: `execution.py`,
`main.py`). -/
structure Level where
  price : Option ℚ
  size : Option ℚ
deriving DecidableEq

/-- The source's literal `1e-9`. -/
def eps9 : ℚ := 1 / 1000000000

/-- The source's literal `1e-6`. -/
def eps6 : ℚ := 1 / 1000000

/-- The source's literal `1e-12`. -/
def eps12 : ℚ := 1 / 1000000000000

/-- Level validation of `src/polymarket_bot/execution.py` (both estimators)
and of the monolith's `vwap_cents_for_usd`:
`if p is None or s is None or p <= 0 or s <= 0: continue`. -/
def levelPS (l : Level) : Option (ℚ × ℚ) :=
  match l.price, l.size with
  | some p, some s => if p ≤ 0 ∨ s ≤ 0 then none else some (p, s)
  | _, _ => none

/-- Level validation of the monolith `src/main.py` `vwap_cents_for_shares`:
`if p is None or s is None or s <= 0: continue` — note the missing
`p <= 0` test. -/
def levelPS_main (l : Level) : Option (ℚ × ℚ) :=
  match l.price, l.size with
  | some p, some s => if s ≤ 0 then none else some (p, s)
  | _, _ => none

/-- The accumulator loop of `vwap_cents_for_shares`, parameterised by the
level validation (`pv`).  Returns the final `(got, cost)` pair.  The source:

    for lvl in asks:
        ... validate, else continue ...
        take = min(s, need - got)
        cost += take * p
        got += take
        if got >= need - 1e-9:
            break
-/
def walkSharesWith (pv : Level → Option (ℚ × ℚ)) : List Level → ℚ → ℚ → ℚ → ℚ × ℚ
  | [], _, got, cost => (got, cost)
  | l :: rest, need, got, cost =>
    match pv l with
    | none => walkSharesWith pv rest need got cost
    | some (p, s) =>
      let take := min s (need - got)
      let cost1 := cost + take * p
      let got1 := got + take
      if need - eps9 ≤ got1 then (got1, cost1)
      else walkSharesWith pv rest need got1 cost1

/-- `vwap_cents_for_shares` of `src/polymarket_bot/execution.py` (book fetch
elided: the ask levels are the argument). -/
def vwap_cents_for_shares (asks : List Level) (shares : ℚ) : Option ℚ :=
  if shares ≤ 0 then none
  else
    let r := walkSharesWith levelPS asks shares 0 0
    if r.1 < shares - eps6 then none
    else some (r.2 / r.1 * 100)

/-- `vwap_cents_for_shares` of the monolith `src/main.py` (identical except
for the level validation, which does not drop non-positive prices). -/
def vwap_cents_for_shares_main (asks : List Level) (shares : ℚ) : Option ℚ :=
  if shares ≤ 0 then none
  else
    let r := walkSharesWith levelPS_main asks shares 0 0
    if r.1 < shares - eps6 then none
    else some (r.2 / r.1 * 100)

/-- The accumulator loop of `vwap_cents_for_usd` (`execution.py`; the monolith
version is extensionally identical).  Returns the final `(spent, shares)`.

    for lvl in asks:
        ... validate, else continue ...
        lvl_cost = s * p
        if spent + lvl_cost <= budget + 1e-12:
            spent += lvl_cost
            shares += s
        else:
            remaining = budget - spent
            take = remaining / p
            if take <= 0: break
            shares += take
            spent += take * p
            break
        if spent >= budget - 1e-9:
            break
-/
def walkUsd : List Level → ℚ → ℚ → ℚ → ℚ × ℚ
  | [], _, spent, shares => (spent, shares)
  | l :: rest, budget, spent, shares =>
    match levelPS l with
    | none => walkUsd rest budget spent shares
    | some (p, s) =>
      let lvl_cost := s * p
      if spent + lvl_cost ≤ budget + eps12 then
        let spent1 := spent + lvl_cost
        let shares1 := shares + s
        if budget - eps9 ≤ spent1 then (spent1, shares1)
        else walkUsd rest budget spent1 shares1
      else
        let remaining := budget - spent
        let take := remaining / p
        if take ≤ 0 then (spent, shares)
        else (spent + take * p, shares + take)

/-- `vwap_cents_for_usd` of `src/polymarket_bot/execution.py`. -/
def vwap_cents_for_usd (asks : List Level) (usd : ℚ) : Option ℚ :=
  if usd ≤ 0 then none
  else
    let r := walkUsd asks usd 0 0
    if r.1 < usd - eps6 ∨ r.2 ≤ 0 then none
    else some (r.1 / r.2 * 100)

/-- Wrap an exact `(price, size)` pair as a well-formed book level. -/
def mkLevel (v : ℚ × ℚ) : Level :=
  { price := some v.1, size := some v.2 }

/-- Total shares available over a list of `(price, size)` pairs. -/
def totalSize : List (ℚ × ℚ) → ℚ
  | [] => 0
  | v :: rest => v.2 + totalSize rest

/-- Liquidity value of a book: the sum of `size * price` (the source's
`lvl_cost`) over the levels that pass validation. -/
def liquidityValue : List Level → ℚ
  | [] => 0
  | l :: rest =>
    (match levelPS l with
      | some ps => ps.2 * ps.1
      | none => 0) + liquidityValue rest

/-- Exact greedy cost of filling `need` shares walking the given pairs in
order: consume `min size need` from each level.  This is the tolerance-free
mathematical core of the shares walk. -/
def fillCost : List (ℚ × ℚ) → ℚ → ℚ
  | [], _ => 0
  | (p, s) :: rest, need => min s need * p + fillCost rest (need - min s need)

/-- Insertion by ascending price. -/
def insertLevel (x : ℚ × ℚ) : List (ℚ × ℚ) → List (ℚ × ℚ)
  | [] => [x]
  | y :: ys => if x.1 ≤ y.1 then x :: y :: ys else y :: insertLevel x ys

/-- Insertion sort by ascending price. -/
def sortLevels : List (ℚ × ℚ) → List (ℚ × ℚ)
  | [] => []
  | x :: xs => insertLevel x (sortLevels xs)

/-- Modelled from the spec: "total_cost_of_cheapest_q_shares" — the cost of
the cheapest `q` shares of the book, i.e. the greedy cost over the levels
"sorted by ascending price before walking" (spec §3, §8). -/
def cheapestCost (vals : List (ℚ × ℚ)) (q : ℚ) : ℚ :=
  fillCost (sortLevels vals) q

/-- All levels carry a positive price and a positive size. -/
def posLevels (vals : List (ℚ × ℚ)) : Prop :=
  ∀ v ∈ vals, 0 < v.1 ∧ 0 < v.2

/-- The book is sorted by ascending price. -/
def sortedByPrice (vals : List (ℚ × ℚ)) : Prop :=
  List.Pairwise (fun a b => a.1 ≤ b.1) vals

/-- No partial prefix of the walk stops inside the `1e-9` early-break window:
walking sizes against a remaining need `rem`, each full consumption leaves
either at least `1e-9` still to fill or nothing at all.  When this holds the
shares walk fills exactly `rem`. -/
def prefixOk : List (ℚ × ℚ) → ℚ → Bool
  | [], _ => true
  | (_, s) :: rest, rem =>
    (decide (s < rem - eps9) || decide (rem ≤ s)) && prefixOk rest (rem - s)

/-! ## JSON values and Python dynamic semantics

`Json` models the values `json.load` can produce, with `null` doubling as
Python's `None` (so `dict.get` on a missing key also yields `null`). -/

inductive Json where
  | null : Json
  | bool (b : Bool) : Json
  | num (q : ℚ) : Json
  | str (s : String) : Json
  | arr (xs : List Json) : Json
  | obj (kvs : List (String × Json)) : Json

/-- Python `d.get(k)` on a JSON object: the first binding of `k`, else
`None`. -/
def jget (kvs : List (String × Json)) (k : String) : Json :=
  match kvs with
  | [] => Json.null
  | (k1, v) :: rest => if k1 = k then v else jget rest k

/-- Python `d.get(k, default)`. -/
def jgetD (kvs : List (String × Json)) (k : String) (d : Json) : Json :=
  match kvs with
  | [] => d
  | (k1, v) :: rest => if k1 = k then v else jgetD rest k d

/-- Python `float(x)` on a JSON value: numbers and booleans convert, strings
convert when they read as a numeric literal (modelled here as integer
literals via `String.toInt?`, a conservative model of Python's float
parsing), everything else raises. -/
def pyFloat : Json → Except Unit ℚ
  | .num q => .ok q
  | .bool b => .ok (if b then 1 else 0)
  | .str s =>
    match s.toInt? with
    | some n => .ok (n : ℚ)
    | none => .error ()
  | _ => .error ()

/-- `_safe_float` of `state.py`: `None` maps to `None`, any conversion
failure is caught and maps to `None`. -/
def safe_float (x : Json) : Option ℚ :=
  match x with
  | .null => none
  | v => (pyFloat v).toOption

/-- Python `str(x)` on a JSON value.  Only the string case matters to the
claims; the renderings of the other cases abstract Python's `repr`
(numeric rendering is not bit-faithful). -/
def pyStr : Json → String
  | .str s => s
  | .null => "None"
  | .bool b => if b then "True" else "False"
  | .num q => toString q
  | .arr _ => "[...]"
  | .obj _ => "{...}"

/-- Python truthiness of a JSON value (used by `if not state.up_token_id`
style guards). -/
def jtruthy : Json → Bool
  | .null => false
  | .bool b => b
  | .num q => decide (q ≠ 0)
  | .str s => !s.isEmpty
  | .arr xs => !xs.isEmpty
  | .obj kvs => !kvs.isEmpty

/-- The string held by a JSON value, if it is one. -/
def jsonStr? : Json → Option String
  | .str s => some s
  | _ => none

/-- Python `state.current_slug != slug` where `slug` is a string: equal only
when the stored value is that same string. -/
def jsonEqStr (j : Json) (s : String) : Bool :=
  match j with
  | .str s1 => s1 = s
  | _ => false

/-! ## Position and BotState (`src/polymarket_bot/state.py`) -/

/-- The `Position` dataclass.  `side`/`token_id` are strings (forced through
`str()` on deserialisation); the stake/shares are floats; the timestamps are
dynamic values (`d.get` stores whatever was in the file), held as `Json`
with `null` for `None`. -/
structure Position where
  side : String
  token_id : String
  total_stake_usd : ℚ := 0
  total_shares : ℚ := 0
  last_add_price_cents : Option ℚ := none
  first_entry_ts : Json := Json.null
  last_add_ts : Json := Json.null

/-- `Position.avg_entry_cents`: `None` when `total_shares <= 0`, else
`(total_stake_usd / total_shares) * 100`. -/
def avg_entry_cents (p : Position) : Option ℚ :=
  if p.total_shares ≤ 0 then none
  else some (p.total_stake_usd / p.total_shares * 100)

/-- `Position.record_fill`. -/
def record_fill (p : Position) (cost_usd shares signal_price_cents : ℚ) (ts : String) : Position :=
  { p with
    total_stake_usd := p.total_stake_usd + cost_usd
    total_shares := p.total_shares + shares
    last_add_price_cents := some signal_price_cents
    last_add_ts := Json.str ts
    first_entry_ts :=
      match p.first_entry_ts with
      | Json.null => Json.str ts
      | t => t }

/-- The `BotState` dataclass.  The identity/timestamp fields are dynamic
(`d.get` stores whatever was in the file); `null` models `None`. -/
structure BotState where
  current_slug : Json := Json.null
  current_condition_id : Json := Json.null
  end_date_iso : Json := Json.null
  up_token_id : Json := Json.null
  down_token_id : Json := Json.null
  main : Option Position := none
  hedge : Option Position := none
  hedged_ts : Json := Json.null
  sum_avg_at_hedge : Option ℚ := none
  last_order_ts : Json := Json.null

/-- `BotState()` — the empty default state of the dataclass. -/
def BotState.init : BotState := {}

/-- `asdict` on a `Position`. -/
def Position.to_json (p : Position) : Json :=
  Json.obj
    [("side", Json.str p.side),
     ("token_id", Json.str p.token_id),
     ("total_stake_usd", Json.num p.total_stake_usd),
     ("total_shares", Json.num p.total_shares),
     ("last_add_price_cents",
       match p.last_add_price_cents with
       | some q => Json.num q
       | none => Json.null),
     ("first_entry_ts", p.first_entry_ts),
     ("last_add_ts", p.last_add_ts)]

/-- `BotState.to_json` (`asdict(self)`, with nested dataclass conversion). -/
def BotState.to_json (st : BotState) : Json :=
  Json.obj
    [("current_slug", st.current_slug),
     ("current_condition_id", st.current_condition_id),
     ("end_date_iso", st.end_date_iso),
     ("up_token_id", st.up_token_id),
     ("down_token_id", st.down_token_id),
     ("main",
       match st.main with
       | some p => p.to_json
       | none => Json.null),
     ("hedge",
       match st.hedge with
       | some p => p.to_json
       | none => Json.null),
     ("hedged_ts", st.hedged_ts),
     ("sum_avg_at_hedge",
       match st.sum_avg_at_hedge with
       | some q => Json.num q
       | none => Json.null),
     ("last_order_ts", st.last_order_ts)]

/-- The inner `pos_from` of `BotState.from_json`: `None` unless the value is
a dict; `float(...)` on the stake/shares fields can raise (propagated as
`Except.error`). -/
def pos_from (p : Json) : Except Unit (Option Position) :=
  match p with
  | .obj kvs => do
    let stake ← pyFloat (jgetD kvs "total_stake_usd" (Json.num 0))
    let shs ← pyFloat (jgetD kvs "total_shares" (Json.num 0))
    pure (some
      { side := pyStr (jget kvs "side")
        token_id := pyStr (jget kvs "token_id")
        total_stake_usd := stake
        total_shares := shs
        last_add_price_cents := safe_float (jget kvs "last_add_price_cents")
        first_entry_ts := jget kvs "first_entry_ts"
        last_add_ts := jget kvs "last_add_ts" })
  | _ => .ok none

/-- `BotState.from_json`: raises (`error`) when the top value is not a dict
(`d.get` on it would raise) or when a nested position's float conversion
raises; otherwise builds the state field by field. -/
def from_json (d : Json) : Except Unit BotState :=
  match d with
  | .obj kvs => do
    let main ← pos_from (jget kvs "main")
    let hedge ← pos_from (jget kvs "hedge")
    pure
      { current_slug := jget kvs "current_slug"
        current_condition_id := jget kvs "current_condition_id"
        end_date_iso := jget kvs "end_date_iso"
        up_token_id := jget kvs "up_token_id"
        down_token_id := jget kvs "down_token_id"
        main := main
        hedge := hedge
        hedged_ts := jget kvs "hedged_ts"
        sum_avg_at_hedge := safe_float (jget kvs "sum_avg_at_hedge")
        last_order_ts := jget kvs "last_order_ts" }
  | _ => .error ()

/-- What the attempt to read the state file can yield: no file, an I/O
error, text that is not JSON, or a parsed JSON value. -/
inductive ReadResult where
  | absent : ReadResult
  | ioError : ReadResult
  | badJson : ReadResult
  | ok (j : Json) : ReadResult

/-- `load_state`: any read or parse failure is caught and yields
`BotState()`. -/
def load_state (r : ReadResult) : BotState :=
  match r with
  | .ok j =>
    match from_json j with
    | .ok st => st
    | .error _ => BotState.init
  | _ => BotState.init

/-! ## Strategy engine (`src/polymarket_bot/strategy.py`) -/

/-- `StrategyParams`. -/
structure StrategyParams where
  chunk_stake : ℚ
  trigger_below_cents : ℚ
  dca_step_cents : ℚ
  hedge_sum_under_cents : ℚ
  max_stake_per_event : ℚ

/-- `choose_entry_side`. -/
def choose_entry_side (up_px down_px trigger_below_cents : ℚ) : Option String :=
  if up_px < trigger_below_cents ∧ down_px < trigger_below_cents then
    some (if up_px ≤ down_px then "up" else "down")
  else if up_px < trigger_below_cents then some "up"
  else if down_px < trigger_below_cents then some "down"
  else none

/-- `should_dca`. -/
def should_dca (main : Position) (main_signal_px step_cents : ℚ) : Bool :=
  match main.last_add_price_cents with
  | none => false
  | some last => decide (main_signal_px ≤ last - step_cents)

/-- `should_hedge`. -/
def should_hedge (main : Position) (opp_signal_px hedge_sum_under_cents : ℚ) :
    Bool × Option ℚ :=
  match avg_entry_cents main with
  | none => (false, none)
  | some main_avg =>
    (decide (main_avg + opp_signal_px < hedge_sum_under_cents),
     some (main_avg + opp_signal_px))

/-! ## The control loop (`src/polymarket_bot/main.py`, `run_bot_loop`)

One loop iteration is split in two pure pieces:

* `phase1` — discovery handling, session retirement and identity rotation
  (lines 134-189 of the packaged loop);
* `tickTrades` — the trading decisions taken once both signal prices are
  available (lines 206-304).

Network and clock effects are passed in as data: the discovery outcome, the
current instant (`now`, as a rational timestamp), a timestamp parser
standing for `parse_iso` (`none` = the parse raised), and the guard/fill
responses the execution collaborator would return. -/

/-- The market identity extracted by
`extract_up_down_tokens_from_gamma_market` (plus the slug picked at line
161). -/
structure MarketInfo where
  slug : String
  condition_id : String
  end_date_iso : String
  up_token : String
  down_token : String

/-- What the discovery step (gamma list + pick + extract) yields for one
tick. -/
inductive Discovery where
  | noEvent : Discovery
  | noMarket : Discovery
  | extractFail : Discovery
  | found (mi : MarketInfo) : Discovery

/-- Outcome of `phase1`: the loop's state variable after the tick prefix,
the states persisted so far (in order), and whether the tick aborted with an
exception, stopped for this tick, or proceeds to trading. -/
inductive Phase1Result where
  | abort (st : BotState) (saved : List BotState) : Phase1Result
  | wait (st : BotState) (saved : List BotState) : Phase1Result
  | proceed (st : BotState) (saved : List BotState) : Phase1Result

/-- Lines 175-189: the token/end-date guard and the end-of-market reset that
run after discovery handling.  `parse_iso` on a non-string raises; a parse
failure raises; both abort the tick (the outer handler catches them). -/
def afterDiscovery (st : BotState) (saved : List BotState) (now : ℚ)
    (parseT : String → Option ℚ) : Phase1Result :=
  if jtruthy st.up_token_id && jtruthy st.down_token_id && jtruthy st.end_date_iso then
    match jsonStr? st.end_date_iso with
    | none => .abort st saved
    | some s =>
      match parseT s with
      | none => .abort st saved
      | some end_dt =>
        if end_dt ≤ now then .wait BotState.init (saved ++ [BotState.init])
        else .proceed st saved
  else .wait st saved

/-- The fresh identity-only session state built on a slug change (line 166
of the packaged loop): identity fields set, no positions, nothing else. -/
def freshState (mi : MarketInfo) : BotState :=
  { current_slug := Json.str mi.slug
    current_condition_id := Json.str mi.condition_id
    end_date_iso := Json.str mi.end_date_iso
    up_token_id := Json.str mi.up_token
    down_token_id := Json.str mi.down_token }

/-- Lines 134-189 of the packaged loop: discovery handling (tolerating a
gamma miss by continuing on saved state), new-market rotation, then
`afterDiscovery`. -/
def phase1 (st : BotState) (disc : Discovery) (now : ℚ)
    (parseT : String → Option ℚ) : Phase1Result :=
  match disc with
  | .extractFail => .abort st []
  | .noMarket => .wait st []
  | .noEvent =>
    if jtruthy st.up_token_id && jtruthy st.down_token_id && jtruthy st.end_date_iso then
      match jsonStr? st.end_date_iso with
      | none => .abort st []
      | some s =>
        match parseT s with
        | none => .abort st []
        | some end_dt =>
          if now < end_dt then afterDiscovery st [] now parseT
          else .wait BotState.init [BotState.init]
    else .wait st []
  | .found mi =>
    if jsonEqStr st.current_slug mi.slug then afterDiscovery st [] now parseT
    else afterDiscovery (freshState mi) [freshState mi] now parseT

/-- The loop state an outcome of `phase1` carries forward. -/
def Phase1Result.state : Phase1Result → BotState
  | .abort st _ => st
  | .wait st _ => st
  | .proceed st _ => st

/-- The states an outcome of `phase1` persisted, in order. -/
def Phase1Result.saved : Phase1Result → List BotState
  | .abort _ sv => sv
  | .wait _ sv => sv
  | .proceed _ sv => sv

/-- A fill as `place_market_buy` reports it: `(cost_usd, shares,
avg_price_cents)`. -/
structure Fill where
  cost : ℚ
  shares : ℚ
  avg : ℚ

/-- The execution collaborator's responses for one tick: the guard VWAP and
fill outcome of each order the tick could attempt. -/
structure TickEnv where
  entry_vwap : Option ℚ
  entry_fill : Option Fill
  dca_vwap : Option ℚ
  dca_fill : Option Fill
  hedge_vwap : Option ℚ
  hedge_fill : Option Fill

/-- The execution-guard ceilings (`--max_entry_vwap_cents`,
`--max_hedge_vwap_cents`). -/
structure GuardArgs where
  max_entry_vwap_cents : ℚ
  max_hedge_vwap_cents : ℚ

/-- An order the tick placed. -/
inductive TradeAction where
  | entry (side : String) : TradeAction
  | dca : TradeAction
  | hedge (side : String) : TradeAction

/-- The token id the state holds for a side (live states hold strings there;
`pyStr` coerces the dynamic value). -/
def tokenFor (st : BotState) (side : String) : String :=
  if side = "up" then pyStr st.up_token_id else pyStr st.down_token_id

/-- Lines 206-304 of the packaged loop: the decisions of one tick once both
signal prices `up_px`/`down_px` are available (the `None`-signal tick just
sleeps before this point).  Returns the state after the tick and the orders
placed.  Faithful points: an existing hedge ends the tick; a missing main
enters via `choose_entry_side` under the entry guard; the stake cap ends the
tick before DCA and hedge; the hedge test runs on the post-DCA main. -/
def tickTrades (st : BotState) (up_px down_px : ℚ) (params : StrategyParams)
    (args : GuardArgs) (env : TickEnv) (ts : String) : BotState × List TradeAction :=
  if st.hedge.isSome then (st, [])
  else
    match st.main with
    | none =>
      match choose_entry_side up_px down_px params.trigger_below_cents with
      | none => (st, [])
      | some entry_side =>
        let signal_px := if entry_side = "up" then up_px else down_px
        match env.entry_vwap with
        | none => (st, [])
        | some v =>
          if args.max_entry_vwap_cents < v then (st, [])
          else
            match env.entry_fill with
            | none => (st, [])
            | some fill =>
              let pos := record_fill
                { side := entry_side, token_id := tokenFor st entry_side }
                fill.cost fill.shares signal_px ts
              ({ st with main := some pos, last_order_ts := Json.str ts },
               [TradeAction.entry entry_side])
    | some main =>
      if params.max_stake_per_event ≤ main.total_stake_usd then (st, [])
      else
        let main_signal_px := if main.side = "up" then up_px else down_px
        let opp_side := if main.side = "up" then "down" else "up"
        let opp_signal_px := if opp_side = "down" then down_px else up_px
        let dcaStep : BotState × Position × List TradeAction :=
          if should_dca main main_signal_px params.dca_step_cents then
            match env.dca_vwap with
            | some dv =>
              if dv ≤ args.max_entry_vwap_cents then
                match env.dca_fill with
                | some fill =>
                  let m1 := record_fill main fill.cost fill.shares main_signal_px ts
                  ({ st with main := some m1, last_order_ts := Json.str ts },
                   m1, [TradeAction.dca])
                | none => (st, main, [])
              else (st, main, [])
            | none => (st, main, [])
          else (st, main, [])
        let st1 := dcaStep.1
        let main1 := dcaStep.2.1
        let acts1 := dcaStep.2.2
        match should_hedge main1 opp_signal_px params.hedge_sum_under_cents with
        | (false, _) => (st1, acts1)
        | (true, sum_signal) =>
          match env.hedge_vwap with
          | none => (st1, acts1)
          | some hv =>
            if args.max_hedge_vwap_cents < hv then (st1, acts1)
            else
              match env.hedge_fill with
              | none => (st1, acts1)
              | some fill =>
                let hedge_pos := record_fill
                  { side := opp_side, token_id := tokenFor st opp_side }
                  fill.cost fill.shares opp_signal_px ts
                ({ st1 with
                    hedge := some hedge_pos
                    hedged_ts := Json.str ts
                    sum_avg_at_hedge := sum_signal
                    last_order_ts := Json.str ts },
                 acts1 ++ [TradeAction.hedge opp_side])

/-! ## C6: `choose_entry_side` -/

/-- C6: for all signal prices and thresholds, `choose_entry_side` picks the
cheaper side when both prices are strictly below the threshold (ties toward
"up"), the single side strictly below it when only one is, and `none`
otherwise; in particular `choose_entry_side 24 24 25 = "up"`,
`choose_entry_side 26 24 25 = "down"`, `choose_entry_side 30 30 25 = none`. -/
theorem choose_entry_side_spec (u d t : ℚ) :
    (u < t → d < t → choose_entry_side u d t = some (if u ≤ d then "up" else "down"))
    ∧ (u < t → ¬d < t → choose_entry_side u d t = some "up")
    ∧ (¬u < t → d < t → choose_entry_side u d t = some "down")
    ∧ (¬u < t → ¬d < t → choose_entry_side u d t = none)
    ∧ choose_entry_side 24 24 25 = some "up"
    ∧ choose_entry_side 26 24 25 = some "down"
    ∧ choose_entry_side 30 30 25 = none := by
  refine ⟨fun h1 h2 => ?_, fun h1 h2 => ?_, fun h1 h2 => ?_, fun h1 h2 => ?_, ?_, ?_, ?_⟩
  · simp [choose_entry_side, h1, h2]
  · simp [choose_entry_side, h1, h2]
  · simp [choose_entry_side, h1, h2]
  · simp [choose_entry_side, h1, h2]
  · norm_num [choose_entry_side]
  · norm_num [choose_entry_side]
  · norm_num [choose_entry_side]

/-- Closed instance of `choose_entry_side_spec` with each hypothesis
discharged at concrete prices. -/
theorem choose_entry_side_spec_witness :
    (24 : ℚ) < 25 ∧ ¬((26 : ℚ) < 25) ∧
      choose_entry_side 24 24 25 = some "up" ∧ choose_entry_side 26 24 25 = some "down" := by
  refine ⟨by norm_num, by norm_num, ?_, ?_⟩
  · have h := (choose_entry_side_spec 24 24 25).1 (by norm_num) (by norm_num)
    simpa using h
  · have h := (choose_entry_side_spec 26 24 25).2.2.1 (by norm_num) (by norm_num)
    exact h

/-! ## C7: `should_hedge` -/

/-- C7: `should_hedge` returns `(false, none)` when the main position has no
fills (`total_shares ≤ 0`, average entry undefined); otherwise it returns
`(avg + opposite_signal < threshold, some (avg + opposite_signal))` with
`avg = total_stake_usd / total_shares * 100`, yielding the computed sum on
both the true and the false branch. -/
theorem should_hedge_spec (main : Position) (opp_signal_px threshold : ℚ) :
    (main.total_shares ≤ 0 → should_hedge main opp_signal_px threshold = (false, none))
    ∧ (0 < main.total_shares →
        should_hedge main opp_signal_px threshold =
          (decide (main.total_stake_usd / main.total_shares * 100 + opp_signal_px < threshold),
           some (main.total_stake_usd / main.total_shares * 100 + opp_signal_px))) := by
  constructor
  · intro h
    simp [should_hedge, avg_entry_cents, h]
  · intro h
    simp [should_hedge, avg_entry_cents, not_le.2 h]

/-- Closed instance of `should_hedge_spec`: stake 3 USD over 10 shares
(average entry 30 cents), opposite signal 65, threshold 98 gives
`(true, some 95)` — the spec's §8 example. -/
theorem should_hedge_spec_witness :
    (0 : ℚ) < 10 ∧
      should_hedge { side := "up", token_id := "T", total_stake_usd := 3, total_shares := 10 }
        65 98 = (true, some 95) := by
  refine ⟨by norm_num, ?_⟩
  have h := (should_hedge_spec
    { side := "up", token_id := "T", total_stake_usd := 3, total_shares := 10 } 65 98).2
    (by norm_num)
  rw [h]
  norm_num

/-! ## C8: `should_dca` -/

/-- C8: `should_dca` is `false` when no prior fill exists
(`last_add_price_cents` absent); otherwise it is `true` iff the current
signal is at most the last fill price minus the step; with last fill 30 and
step 2 it fires at signal 28 and not at 28.5. -/
theorem should_dca_spec (main : Position) (signal_px step : ℚ) :
    (main.last_add_price_cents = none → should_dca main signal_px step = false)
    ∧ (∀ last : ℚ, main.last_add_price_cents = some last →
        (should_dca main signal_px step = true ↔ signal_px ≤ last - step))
    ∧ (∀ p30 : Position, p30.last_add_price_cents = some 30 →
        should_dca p30 28 2 = true ∧ should_dca p30 (57/2) 2 = false) := by
  refine ⟨fun h => ?_, fun last h => ?_, fun p30 h => ?_⟩
  · simp [should_dca, h]
  · simp [should_dca, h]
  · constructor
    · simp only [should_dca, h]
      norm_num
    · simp only [should_dca, h]
      norm_num

/-- Closed instance of `should_dca_spec` at a concrete position whose last
fill was at 30 cents, with step 2: fires at 28, not at 28.5. -/
theorem should_dca_spec_witness :
    should_dca { side := "up", token_id := "T", last_add_price_cents := some 30 } 28 2 = true
    ∧ should_dca { side := "up", token_id := "T", last_add_price_cents := some 30 } (57/2) 2
        = false :=
  (should_dca_spec { side := "up", token_id := "T", last_add_price_cents := some 30 } 0 0).2.2
    { side := "up", token_id := "T", last_add_price_cents := some 30 } rfl

/-! ## C4: level validation in the estimators -/

/-- C4: divergence of the monolith `src/main.py` `vwap_cents_for_shares`
from the skip-invalid-levels contract.  A single ask level with price `-1`
and size `10` is consumed rather than skipped when buying 5 shares: the
monolith returns `some (-100)` cents, while the packaged estimator
(`execution.py`), which also tests `p <= 0`, skips the level and returns
`none`. -/
theorem vwap_shares_main_negative_price_bug :
    vwap_cents_for_shares_main [{ price := some (-1), size := some 10 }] 5 = some (-100)
    ∧ vwap_cents_for_shares [{ price := some (-1), size := some 10 }] 5 = none := by
  constructor
  · norm_num [vwap_cents_for_shares_main, walkSharesWith, levelPS_main, eps9, eps6, min_def]
  · norm_num [vwap_cents_for_shares, walkSharesWith, levelPS, eps9, eps6, min_def]

/-! ## C9 / C10: state persistence -/

/-- `pos_from` undoes `Position.to_json` exactly. -/
theorem pos_roundtrip (p : Position) : pos_from p.to_json = .ok (some p) := by
  cases p with
  | mk side token stake shs last fe la =>
    cases last <;> rfl

/-- `pos_from` of `null` (an absent position) is `None`. -/
theorem pos_from_null : pos_from Json.null = .ok none := rfl

/-- `from_json` undoes `BotState.to_json` exactly, for every state the
dataclass can hold. -/
theorem bot_roundtrip (st : BotState) : from_json st.to_json = .ok st := by
  cases st with
  | mk cs cc ed ut dt main hedge ht sa lo =>
    cases main <;> cases hedge <;> cases sa <;>
      simp [from_json, BotState.to_json, jget, pos_roundtrip, pos_from_null, safe_float,
        pyFloat, Except.toOption, Except.bind, Except.map, bind, Functor.map,
        Except.instMonad, pure, Except.pure]

/-- A dynamic field that holds an absent value or a string. -/
def nullOrStr : Json → Bool
  | .null => true
  | .str _ => true
  | _ => false

/-- C10: serialisation round-trip.  For every well-formed session state —
sides are "up"/"down" strings, the identity/timestamp fields hold `None` or
strings, the numeric fields are floats — `from_json (to_json st)`
reproduces every field of the state and of its nested positions exactly; in
particular absent optional fields come back absent. -/
theorem state_json_roundtrip (st : BotState)
    (hcs : nullOrStr st.current_slug = true)
    (hcc : nullOrStr st.current_condition_id = true)
    (hed : nullOrStr st.end_date_iso = true)
    (hut : nullOrStr st.up_token_id = true)
    (hdt : nullOrStr st.down_token_id = true)
    (hht : nullOrStr st.hedged_ts = true)
    (hlo : nullOrStr st.last_order_ts = true)
    (hmain : ∀ p ∈ st.main,
      (p.side = "up" ∨ p.side = "down") ∧
        nullOrStr p.first_entry_ts = true ∧ nullOrStr p.last_add_ts = true)
    (hhedge : ∀ p ∈ st.hedge,
      (p.side = "up" ∨ p.side = "down") ∧
        nullOrStr p.first_entry_ts = true ∧ nullOrStr p.last_add_ts = true) :
    from_json st.to_json = .ok st :=
  bot_roundtrip st

/-- Closed instance of `state_json_roundtrip`: the state of
`tests/test_state.py` (slug "x", a main position of 3 USD over 10 shares,
last add at 30 cents, all other optionals absent) round-trips exactly. -/
theorem state_json_roundtrip_witness :
    from_json (BotState.to_json
      { current_slug := Json.str "x"
        current_condition_id := Json.str "c"
        end_date_iso := Json.str "2025-01-01T00:00:00+00:00"
        up_token_id := Json.str "1"
        down_token_id := Json.str "2"
        main := some
          { side := "up", token_id := "1", total_stake_usd := 3, total_shares := 10
            last_add_price_cents := some 30 } }) =
      .ok
      { current_slug := Json.str "x"
        current_condition_id := Json.str "c"
        end_date_iso := Json.str "2025-01-01T00:00:00+00:00"
        up_token_id := Json.str "1"
        down_token_id := Json.str "2"
        main := some
          { side := "up", token_id := "1", total_stake_usd := 3, total_shares := 10
            last_add_price_cents := some 30 } } :=
  state_json_roundtrip _ rfl rfl rfl rfl rfl rfl rfl
    (fun p hp => by
      cases hp
      exact ⟨Or.inl rfl, rfl, rfl⟩)
    (fun p hp => by cases hp)

/-- C9: `load_state` is total over every read outcome — file absent,
unreadable, malformed JSON, or a JSON value whose fields have unexpected
types — and any failure (read failure, or `from_json` raising) yields the
empty default `BotState()`; a non-default result arises only from a
successful parse, which is returned as parsed. -/
theorem load_state_spec (r : ReadResult) :
    (∀ j st, r = .ok j → from_json j = .ok st → load_state r = st)
    ∧ (load_state r = BotState.init ∨
        ∃ j, r = .ok j ∧ from_json j = .ok (load_state r)) := by
  cases r with
  | absent => exact ⟨(fun j st h => nomatch h), Or.inl rfl⟩
  | ioError => exact ⟨(fun j st h => nomatch h), Or.inl rfl⟩
  | badJson => exact ⟨(fun j st h => nomatch h), Or.inl rfl⟩
  | ok j =>
    cases hfj : from_json j with
    | ok st =>
      constructor
      · intro j1 st1 hj hst
        cases hj
        rw [hst] at hfj
        cases hfj
        simp [load_state, hst]
      · exact Or.inr ⟨j, rfl, by simp [load_state, hfj]⟩
    | error e =>
      constructor
      · intro j1 st1 hj hst
        cases hj
        rw [hst] at hfj
        cases hfj
      · exact Or.inl (by simp [load_state, hfj])

/-- Closed instance of `load_state_spec`: an empty JSON object parses to the
default state, and `load_state` returns exactly that parse. -/
theorem load_state_spec_witness :
    from_json (Json.obj []) = .ok BotState.init ∧
      load_state (.ok (Json.obj [])) = BotState.init :=
  ⟨rfl, (load_state_spec (.ok (Json.obj []))).1 (Json.obj []) BotState.init rfl rfl⟩

/-! ## C5: `vwap_cents_for_usd` and walk lemmas -/

/-- Levels that pass validation carry positive price and size. -/
theorem levelPS_pos {l : Level} {ps : ℚ × ℚ} (h : levelPS l = some ps) :
    0 < ps.1 ∧ 0 < ps.2 := by
  unfold levelPS at h
  split at h
  · rename_i p s
    split at h
    · cases h
    · rename_i hps
      cases h
      push_neg at hps
      exact ⟨hps.1, hps.2⟩
  · cases h

/-- `liquidityValue` ignores a level that fails validation. -/
theorem liquidityValue_cons_skip {l : Level} (rest : List Level) (hl : levelPS l = none) :
    liquidityValue (l :: rest) = liquidityValue rest := by
  show (match levelPS l with
    | some ps => ps.2 * ps.1
    | none => 0) + liquidityValue rest = liquidityValue rest
  rw [hl]
  show 0 + liquidityValue rest = liquidityValue rest
  rw [zero_add]

/-- `liquidityValue` adds `size * price` for a validated level. -/
theorem liquidityValue_cons_hit {l : Level} {p s : ℚ} (rest : List Level)
    (hl : levelPS l = some (p, s)) :
    liquidityValue (l :: rest) = s * p + liquidityValue rest := by
  show (match levelPS l with
    | some ps => ps.2 * ps.1
    | none => 0) + liquidityValue rest = s * p + liquidityValue rest
  rw [hl]

/-- The budget walk on an empty book returns its accumulators. -/
theorem walkUsd_nil (budget spent shares : ℚ) : walkUsd [] budget spent shares = (spent, shares) := rfl

/-- The budget walk skips a level that fails validation. -/
theorem walkUsd_cons_skip {l : Level} (rest : List Level) (budget spent shares : ℚ)
    (hl : levelPS l = none) :
    walkUsd (l :: rest) budget spent shares = walkUsd rest budget spent shares := by
  conv_lhs => unfold walkUsd
  rw [hl]

/-- Full consumption followed by the `1e-9` early break. -/
theorem walkUsd_cons_full_break {l : Level} {p s : ℚ} (rest : List Level)
    (budget spent shares : ℚ) (hl : levelPS l = some (p, s))
    (hfull : spent + s * p ≤ budget + eps12) (hbreak : budget - eps9 ≤ spent + s * p) :
    walkUsd (l :: rest) budget spent shares = (spent + s * p, shares + s) := by
  unfold walkUsd
  rw [hl]
  simp only [if_pos hfull, if_pos hbreak]

/-- Full consumption, budget not yet reached: the walk continues. -/
theorem walkUsd_cons_full_go {l : Level} {p s : ℚ} (rest : List Level)
    (budget spent shares : ℚ) (hl : levelPS l = some (p, s))
    (hfull : spent + s * p ≤ budget + eps12) (hbreak : ¬budget - eps9 ≤ spent + s * p) :
    walkUsd (l :: rest) budget spent shares = walkUsd rest budget (spent + s * p) (shares + s) := by
  conv_lhs => unfold walkUsd
  rw [hl]
  simp only [if_pos hfull, if_neg hbreak]

/-- Partial consumption of the final level: `take = remaining / p`. -/
theorem walkUsd_cons_take {l : Level} {p s : ℚ} (rest : List Level)
    (budget spent shares : ℚ) (hl : levelPS l = some (p, s))
    (hfull : ¬spent + s * p ≤ budget + eps12) (htake : ¬(budget - spent) / p ≤ 0) :
    walkUsd (l :: rest) budget spent shares =
      (spent + (budget - spent) / p * p, shares + (budget - spent) / p) := by
  unfold walkUsd
  rw [hl]
  simp only [if_neg hfull, if_neg htake]

/-- Degenerate partial step with a non-positive take: the walk stops. -/
theorem walkUsd_cons_take_stop {l : Level} {p s : ℚ} (rest : List Level)
    (budget spent shares : ℚ) (hl : levelPS l = some (p, s))
    (hfull : ¬spent + s * p ≤ budget + eps12) (htake : (budget - spent) / p ≤ 0) :
    walkUsd (l :: rest) budget spent shares = (spent, shares) := by
  unfold walkUsd
  rw [hl]
  simp only [if_neg hfull, if_pos htake]

/-- A book's liquidity value is nonnegative. -/
theorem liquidityValue_nonneg (asks : List Level) : 0 ≤ liquidityValue asks := by
  induction asks with
  | nil => exact le_refl 0
  | cons l rest ih =>
    cases hl : levelPS l with
    | none => rw [liquidityValue_cons_skip rest hl]; exact ih
    | some ps =>
      obtain ⟨p, s⟩ := ps
      have hpos := levelPS_pos hl
      simp only at hpos
      rw [liquidityValue_cons_hit rest hl]
      nlinarith [hpos.1, hpos.2]

/-- The budget walk never spends more than the validated liquidity. -/
theorem walkUsd_le_liquidity (asks : List Level) :
    ∀ budget spent shares, (walkUsd asks budget spent shares).1 ≤ spent + liquidityValue asks := by
  induction asks with
  | nil =>
    intro budget spent shares
    rw [walkUsd_nil]
    show spent ≤ spent + liquidityValue []
    show spent ≤ spent + 0
    linarith
  | cons l rest ih =>
    intro budget spent shares
    cases hl : levelPS l with
    | none =>
      rw [walkUsd_cons_skip rest budget spent shares hl, liquidityValue_cons_skip rest hl]
      exact ih budget spent shares
    | some ps =>
      obtain ⟨p, s⟩ := ps
      have hpos := levelPS_pos hl
      simp only at hpos
      have hliq := liquidityValue_nonneg rest
      rw [liquidityValue_cons_hit rest hl]
      by_cases hfull : spent + s * p ≤ budget + eps12
      · by_cases hbreak : budget - eps9 ≤ spent + s * p
        · rw [walkUsd_cons_full_break rest budget spent shares hl hfull hbreak]
          show spent + s * p ≤ spent + (s * p + liquidityValue rest)
          linarith
        · rw [walkUsd_cons_full_go rest budget spent shares hl hfull hbreak]
          have := ih budget (spent + s * p) (shares + s)
          linarith
      · by_cases htake : (budget - spent) / p ≤ 0
        · rw [walkUsd_cons_take_stop rest budget spent shares hl hfull htake]
          show spent ≤ spent + (s * p + liquidityValue rest)
          nlinarith [hpos.1, hpos.2]
        · rw [walkUsd_cons_take rest budget spent shares hl hfull htake]
          show spent + (budget - spent) / p * p ≤ spent + (s * p + liquidityValue rest)
          have hp : p ≠ 0 := ne_of_gt hpos.1
          rw [div_mul_cancel₀ _ hp]
          push_neg at hfull
          have he12 : (0:ℚ) < eps12 := by norm_num [eps12]
          linarith

/-- When the book's validated liquidity covers the remaining budget and the
budget is not yet reached, the walk ends having spent the budget to within
`[budget - 1e-9, budget + 1e-12]`, acquiring at least one extra share. -/
theorem walkUsd_fills (asks : List Level) :
    ∀ budget spent shares, budget ≤ spent + liquidityValue asks → spent < budget →
      budget - eps9 ≤ (walkUsd asks budget spent shares).1 ∧
        (walkUsd asks budget spent shares).1 ≤ budget + eps12 ∧
        shares < (walkUsd asks budget spent shares).2 := by
  induction asks with
  | nil =>
    intro budget spent shares hcov hlt
    have h0 : liquidityValue [] = 0 := rfl
    rw [h0] at hcov
    linarith
  | cons l rest ih =>
    intro budget spent shares hcov hlt
    cases hl : levelPS l with
    | none =>
      rw [liquidityValue_cons_skip rest hl] at hcov
      rw [walkUsd_cons_skip rest budget spent shares hl]
      exact ih budget spent shares hcov hlt
    | some ps =>
      obtain ⟨p, s⟩ := ps
      have hpos := levelPS_pos hl
      simp only at hpos
      rw [liquidityValue_cons_hit rest hl] at hcov
      have heps9 : (0 : ℚ) < eps9 := by norm_num [eps9]
      have heps12 : (0 : ℚ) < eps12 := by norm_num [eps12]
      by_cases hfull : spent + s * p ≤ budget + eps12
      · by_cases hbreak : budget - eps9 ≤ spent + s * p
        · rw [walkUsd_cons_full_break rest budget spent shares hl hfull hbreak]
          exact ⟨hbreak, hfull, by show shares < shares + s; linarith [hpos.2]⟩
        · rw [walkUsd_cons_full_go rest budget spent shares hl hfull hbreak]
          push_neg at hbreak
          have h1 : budget ≤ spent + s * p + liquidityValue rest := by linarith
          have h2 : spent + s * p < budget := by linarith
          have h3 := ih budget (spent + s * p) (shares + s) h1 h2
          exact ⟨h3.1, h3.2.1, by linarith [h3.2.2, hpos.2]⟩
      · have htake : ¬(budget - spent) / p ≤ 0 := by
          rw [not_le]
          exact div_pos (by linarith) hpos.1
        rw [walkUsd_cons_take rest budget spent shares hl hfull htake]
        push_neg at htake
        have hp : p ≠ 0 := ne_of_gt hpos.1
        refine ⟨?_, ?_, ?_⟩
        · show budget - eps9 ≤ spent + (budget - spent) / p * p
          rw [div_mul_cancel₀ _ hp]
          linarith
        · show spent + (budget - spent) / p * p ≤ budget + eps12
          rw [div_mul_cancel₀ _ hp]
          linarith
        · show shares < shares + (budget - spent) / p
          linarith

/-- C5: for every ask book and budget `b`: a non-positive `b` returns `None`
immediately; when the validated liquidity value is at least `b` the walk
spends `b` to within the source's `1e-6` tolerance (the final level being
partially consumed with `take_shares = remaining_budget / level_price`) and
the estimator returns `spent / shares * 100`; and when the liquidity value
is below `b - 1e-6` it returns `None`. -/
theorem vwap_for_budget_spec (asks : List Level) (b : ℚ) :
    (b ≤ 0 → vwap_cents_for_usd asks b = none)
    ∧ (0 < b → b ≤ liquidityValue asks →
        b - eps6 ≤ (walkUsd asks b 0 0).1 ∧ (walkUsd asks b 0 0).1 ≤ b + eps6 ∧
          vwap_cents_for_usd asks b =
            some ((walkUsd asks b 0 0).1 / (walkUsd asks b 0 0).2 * 100))
    ∧ (liquidityValue asks < b - eps6 → vwap_cents_for_usd asks b = none) := by
  refine ⟨fun h => by simp [vwap_cents_for_usd, h], fun hb hliq => ?_, fun hlt => ?_⟩
  · have h := walkUsd_fills asks b 0 0 (by linarith) hb
    have he9 : eps9 < eps6 := by norm_num [eps9, eps6]
    have he12 : eps12 < eps6 := by norm_num [eps12, eps6]
    have he6 : (0:ℚ) < eps6 := by norm_num [eps6]
    refine ⟨by linarith [h.1], by linarith [h.2.1], ?_⟩
    rw [vwap_cents_for_usd, if_neg (not_le.2 hb)]
    rw [if_neg]
    rw [not_or, not_lt, not_le]
    exact ⟨by linarith [h.1], h.2.2⟩
  · by_cases hb : b ≤ 0
    · simp [vwap_cents_for_usd, hb]
    · rw [vwap_cents_for_usd, if_neg hb]
      rw [if_pos]
      left
      have := walkUsd_le_liquidity asks b 0 0
      linarith

/-- Closed instance of `vwap_for_budget_spec`: a single ask of 4 shares at
0.50 USD (liquidity 2) against a 1 USD budget is consumed partially,
spending exactly 1 USD for 2 shares: the estimator returns 50 cents. -/
theorem vwap_for_budget_spec_witness :
    (0 : ℚ) < 1 ∧ (1 : ℚ) ≤ liquidityValue [mkLevel (1/2, 4)] ∧
      vwap_cents_for_usd [mkLevel (1/2, 4)] 1 = some 50 := by
  have hliq : liquidityValue [mkLevel (1/2, 4)] = 2 := by
    norm_num [liquidityValue, levelPS, mkLevel]
  refine ⟨by norm_num, by rw [hliq]; norm_num, ?_⟩
  have h := (vwap_for_budget_spec [mkLevel (1/2, 4)] 1).2.1 (by norm_num)
    (by rw [hliq]; norm_num)
  rw [h.2.2]
  norm_num [walkUsd, levelPS, mkLevel, eps9, eps12]

/-- C5 counterexample to the claim as stated: a book whose liquidity value
is 0.9999999 USD — strictly below a budget of 1 USD — does not return
`None`: the walk consumes the whole book, the `1e-6` shortfall tolerance
accepts it, and the estimator returns 50 cents. -/
theorem vwap_for_budget_under_liquidity_some :
    liquidityValue [mkLevel (1/2, 9999999/5000000)] < 1 ∧
      vwap_cents_for_usd [mkLevel (1/2, 9999999/5000000)] 1 = some 50 := by
  constructor
  · norm_num [liquidityValue, levelPS, mkLevel]
  · norm_num [vwap_cents_for_usd, walkUsd, levelPS, mkLevel, eps9, eps6, eps12]


/-! ## C2: the stake cap short-circuits the tick -/

/-- C2 (amended): in a tick where the session is unhedged, a main position
exists, and its cumulative stake has reached `max_stake_per_event`, the tick
short-circuits entirely: no DCA is proposed and the hedge decision is not
evaluated either — the state is unchanged and no order is placed. -/
theorem stake_cap_stops_tick (st : BotState) (m : Position) (up_px down_px : ℚ)
    (params : StrategyParams) (args : GuardArgs) (env : TickEnv) (ts : String)
    (hh : st.hedge = none) (hm : st.main = some m)
    (hcap : params.max_stake_per_event ≤ m.total_stake_usd) :
    tickTrades st up_px down_px params args env ts = (st, []) := by
  unfold tickTrades
  rw [hh, hm]
  simp [if_pos hcap]

/-- A main position whose cumulative stake sits exactly at the cap. -/
def capPosition : Position :=
  { side := "up", token_id := "T", total_stake_usd := 25, total_shares := 100,
    last_add_price_cents := some 20 }

/-- A tracked, unhedged session holding `capPosition`. -/
def capState : BotState :=
  { up_token_id := Json.str "U", down_token_id := Json.str "D", main := some capPosition }

/-- Default strategy parameters (cap 25 USD). -/
def capParams : StrategyParams :=
  { chunk_stake := 1, trigger_below_cents := 25, dca_step_cents := 2,
    hedge_sum_under_cents := 98, max_stake_per_event := 25 }

/-- Default guard ceilings. -/
def capGuards : GuardArgs :=
  { max_entry_vwap_cents := 30, max_hedge_vwap_cents := 90 }

/-- An execution environment in which a hedge would pass its guard and fill. -/
def capEnv : TickEnv :=
  { entry_vwap := none, entry_fill := none, dca_vwap := none, dca_fill := none,
    hedge_vwap := some 80, hedge_fill := some { cost := 25, shares := 30, avg := 83 } }

/-- C2 counterexample to the claim as stated: a capped main position (stake
25 of cap 25, average entry 25 cents) for which `should_hedge` fires
(25 + 60 = 85 < 98) and whose hedge guard and fill would both succeed —
yet the tick places no order at all: hedge evaluation is skipped, refuting
"hedge decisions are still evaluated in that same tick". -/
theorem stake_cap_counterexample :
    should_hedge capPosition 60 98 = (true, some 85)
    ∧ capEnv.hedge_vwap = some 80
    ∧ tickTrades capState 20 60 capParams capGuards capEnv "t" = (capState, []) := by
  refine ⟨?_, rfl, ?_⟩
  · norm_num [should_hedge, avg_entry_cents, capPosition]
  · norm_num [tickTrades, capState, capParams, capPosition]

/-- Closed instance of `stake_cap_stops_tick` at the concrete capped
session. -/
theorem stake_cap_stops_tick_witness :
    capState.hedge = none ∧ capState.main = some capPosition ∧
      capParams.max_stake_per_event ≤ capPosition.total_stake_usd ∧
      tickTrades capState 20 60 capParams capGuards capEnv "t" = (capState, []) :=
  ⟨rfl, rfl, le_refl _,
    stake_cap_stops_tick capState capPosition 20 60 capParams capGuards capEnv "t"
      rfl rfl (le_refl _)⟩


/-! ## C3: session retirement -/

/-- `afterDiscovery` either keeps the state it was given or retires to the
empty default, and persists nothing beyond what it was handed except
possibly that default. -/
theorem afterDiscovery_cases (st : BotState) (saved : List BotState) (now : ℚ)
    (parseT : String → Option ℚ) :
    ((afterDiscovery st saved now parseT).state = st ∨
      (afterDiscovery st saved now parseT).state = BotState.init)
    ∧ ((afterDiscovery st saved now parseT).saved = saved ∨
      (afterDiscovery st saved now parseT).saved = saved ++ [BotState.init]) := by
  unfold afterDiscovery
  split
  · split
    · exact ⟨Or.inl rfl, Or.inl rfl⟩
    · split
      · exact ⟨Or.inl rfl, Or.inl rfl⟩
      · split
        · exact ⟨Or.inr rfl, Or.inr rfl⟩
        · exact ⟨Or.inl rfl, Or.inl rfl⟩
  · exact ⟨Or.inl rfl, Or.inl rfl⟩

/-- C3 (amended): the packaged loop retires the session — replacing it with
the empty default and persisting the replacement — when wall-clock time
reaches the parsed `end_date`, both on the gamma-miss path and on the
same-market path; on a market-identity (slug) change it replaces the session
with a fresh identity-only state (no position carry-over) and persists it;
but when token identifiers or the end date are missing/falsy it merely
waits: the session (positions included) is left unchanged and nothing is
persisted. -/
theorem session_retirement_spec (st : BotState) (now : ℚ) (parseT : String → Option ℚ) :
    (∀ s e, jtruthy st.up_token_id = true → jtruthy st.down_token_id = true →
      jtruthy st.end_date_iso = true →
      jsonStr? st.end_date_iso = some s → parseT s = some e → e ≤ now →
      phase1 st .noEvent now parseT = .wait BotState.init [BotState.init])
    ∧ (∀ mi s e, jsonEqStr st.current_slug mi.slug = true →
      jtruthy st.up_token_id = true → jtruthy st.down_token_id = true →
      jtruthy st.end_date_iso = true →
      jsonStr? st.end_date_iso = some s → parseT s = some e → e ≤ now →
      phase1 st (.found mi) now parseT = .wait BotState.init [BotState.init])
    ∧ (∀ mi, jsonEqStr st.current_slug mi.slug = false →
      (phase1 st (.found mi) now parseT).state.main = none ∧
      (phase1 st (.found mi) now parseT).state.hedge = none ∧
      freshState mi ∈ (phase1 st (.found mi) now parseT).saved)
    ∧ ((jtruthy st.up_token_id && jtruthy st.down_token_id && jtruthy st.end_date_iso) = false →
      phase1 st .noEvent now parseT = .wait st [] ∧
      (∀ mi, jsonEqStr st.current_slug mi.slug = true →
        phase1 st (.found mi) now parseT = .wait st [])) := by
  refine ⟨?_, ?_, ?_, ?_⟩
  · intro s e hu hd he hs hp hle
    simp only [phase1, hu, hd, he, Bool.and_self, if_true, hs, hp]
    rw [if_neg (not_lt.2 hle)]
  · intro mi s e hslug hu hd he hs hp hle
    simp only [phase1, hslug, if_true, afterDiscovery, hu, hd, he, Bool.and_self, hs, hp]
    rw [if_pos hle]
    simp
  · intro mi hslug
    simp only [phase1, hslug, Bool.false_eq_true, if_false]
    have hc := afterDiscovery_cases (freshState mi) [freshState mi] now parseT
    refine ⟨?_, ?_, ?_⟩
    · rcases hc.1 with h | h <;> rw [h] <;> rfl
    · rcases hc.1 with h | h <;> rw [h] <;> rfl
    · rcases hc.2 with h | h <;> rw [h] <;> simp
  · intro hfalse
    constructor
    · simp only [phase1, hfalse, Bool.false_eq_true, if_false]
    · intro mi hslug
      simp only [phase1, hslug, if_true, afterDiscovery, hfalse, Bool.false_eq_true, if_false]

/-- A position carried by a stale session. -/
def stalePosition : Position :=
  { side := "up", token_id := "T", total_stake_usd := 3, total_shares := 10 }

/-- A session with a live main position but no token identifiers. -/
def staleState : BotState := { main := some stalePosition }

/-- C3 counterexample to the claim as stated: a session whose token
identifiers are missing but which still holds a main position is NOT
replaced or persisted by the packaged loop — the tick waits with the
session unchanged, refuting "the Session State is replaced with a fresh
Session State ... and the replacement is persisted" for the missing-token
condition. -/
theorem missing_tokens_no_reset :
    staleState.main = some stalePosition ∧
      phase1 staleState .noEvent 0 (fun _ => none) = .wait staleState [] :=
  ⟨rfl, rfl⟩

/-- A tracked session whose end date parses to instant 5. -/
def endedState : BotState :=
  { up_token_id := Json.str "U", down_token_id := Json.str "D",
    end_date_iso := Json.str "E" }

/-- Closed instance of `session_retirement_spec`: at instant 10 a session
that ended at instant 5 is reset to the default state and the reset is
persisted. -/
theorem session_retirement_spec_witness :
    jtruthy endedState.up_token_id = true ∧
      jsonStr? endedState.end_date_iso = some "E" ∧
      (5 : ℚ) ≤ 10 ∧
      phase1 endedState .noEvent 10 (fun _ => some 5) = .wait BotState.init [BotState.init] :=
  ⟨rfl, rfl, by norm_num,
    (session_retirement_spec endedState 10 (fun _ => some 5)).1 "E" 5 rfl rfl rfl rfl rfl
      (by norm_num)⟩


/-! ## C1: `vwap_cents_for_shares` on sorted books -/

/-- A positive exact pair passes level validation unchanged. -/
theorem mkLevel_valid {p s : ℚ} (hp : 0 < p) (hs : 0 < s) :
    levelPS (mkLevel (p, s)) = some (p, s) := by
  unfold levelPS mkLevel
  simp only
  rw [if_neg]
  push_neg
  exact ⟨hp, hs⟩

/-- Filling nothing costs nothing (sizes nonnegative). -/
theorem fillCost_zero (vals : List (ℚ × ℚ)) (h : ∀ v ∈ vals, 0 ≤ v.2) :
    fillCost vals 0 = 0 := by
  induction vals with
  | nil => rfl
  | cons v rest ih =>
    obtain ⟨p, s⟩ := v
    have hs : (0:ℚ) ≤ s := h (p, s) (List.mem_cons_self _ _)
    show min s 0 * p + fillCost rest (0 - min s 0) = 0
    rw [min_eq_right hs]
    simp only [zero_mul, sub_zero, zero_add, zero_sub, neg_zero]
    exact ih (fun v hv => h v (List.mem_cons_of_mem _ hv))

/-- One step of the shares walk that hits the `1e-9` early break. -/
theorem walkShares_cons_break {pv : Level → Option (ℚ × ℚ)} {l : Level} {p s : ℚ}
    (rest : List Level) (need got cost : ℚ) (hl : pv l = some (p, s))
    (hbr : need - eps9 ≤ got + min s (need - got)) :
    walkSharesWith pv (l :: rest) need got cost =
      (got + min s (need - got), cost + min s (need - got) * p) := by
  conv_lhs => unfold walkSharesWith
  rw [hl]
  simp only [if_pos hbr]

/-- One step of the shares walk that continues to the next level. -/
theorem walkShares_cons_go {pv : Level → Option (ℚ × ℚ)} {l : Level} {p s : ℚ}
    (rest : List Level) (need got cost : ℚ) (hl : pv l = some (p, s))
    (hbr : ¬need - eps9 ≤ got + min s (need - got)) :
    walkSharesWith pv (l :: rest) need got cost =
      walkSharesWith pv rest need (got + min s (need - got)) (cost + min s (need - got) * p) := by
  conv_lhs => unfold walkSharesWith
  rw [hl]
  simp only [if_neg hbr]

/-- The shares walk with exact arithmetic: under the no-early-break prefix
condition it fills exactly `need` at the exact greedy cost. -/
theorem walkShares_exact (vals : List (ℚ × ℚ)) :
    ∀ need got cost, (∀ v ∈ vals, 0 < v.1 ∧ 0 < v.2) → got < need →
      need - got ≤ totalSize vals → prefixOk vals (need - got) = true →
      walkSharesWith levelPS (vals.map mkLevel) need got cost =
        (need, cost + fillCost vals (need - got)) := by
  induction vals with
  | nil =>
    intro need got cost hpos hlt htot hpre
    have h0 : totalSize [] = 0 := rfl
    rw [h0] at htot
    linarith
  | cons v rest ih =>
    intro need got cost hpos hlt htot hpre
    obtain ⟨p, s⟩ := v
    have hv := hpos (p, s) (List.mem_cons_self _ _)
    simp only at hv
    have hl : levelPS (mkLevel (p, s)) = some (p, s) := mkLevel_valid hv.1 hv.2
    have htot2 : need - got ≤ s + totalSize rest := htot
    have hpre2 : ((decide (s < need - got - eps9) || decide (need - got ≤ s)) &&
        prefixOk rest (need - got - s)) = true := hpre
    rw [Bool.and_eq_true, Bool.or_eq_true, decide_eq_true_iff, decide_eq_true_iff] at hpre2
    have heps9 : (0 : ℚ) < eps9 := by norm_num [eps9]
    by_cases hcase : need - got ≤ s
    · have hmin : min s (need - got) = need - got := min_eq_right hcase
      have hbr : need - eps9 ≤ got + min s (need - got) := by
        rw [hmin]
        linarith
      rw [List.map_cons, walkShares_cons_break (rest.map mkLevel) need got cost hl hbr, hmin]
      have hfc : fillCost ((p, s) :: rest) (need - got) =
          (need - got) * p + fillCost rest 0 := by
        show min s (need - got) * p + fillCost rest (need - got - min s (need - got)) = _
        rw [hmin]
        ring_nf
      rw [hfc, fillCost_zero rest (fun v hv => le_of_lt (hpos v (List.mem_cons_of_mem _ hv)).2)]
      rw [Prod.mk.injEq]
      exact ⟨by linarith, by ring⟩
    · push_neg at hcase
      have hs' : s < need - got - eps9 := by
        rcases hpre2.1 with h | h
        · exact h
        · exact absurd h (not_le.2 hcase)
      have hmin : min s (need - got) = s := min_eq_left (le_of_lt hcase)
      have hbr : ¬need - eps9 ≤ got + min s (need - got) := by
        rw [hmin]
        push_neg
        linarith
      rw [List.map_cons, walkShares_cons_go (rest.map mkLevel) need got cost hl hbr, hmin]
      have ihr := ih need (got + s) (cost + s * p)
        (fun v hv => hpos v (List.mem_cons_of_mem _ hv))
        (by linarith)
        (by have : need - (got + s) = need - got - s := by ring
            rw [this]; linarith)
        (by have : need - (got + s) = need - got - s := by ring
            rw [this]; exact hpre2.2)
      rw [ihr]
      have hfc : fillCost ((p, s) :: rest) (need - got) =
          s * p + fillCost rest (need - got - s) := by
        show min s (need - got) * p + fillCost rest (need - got - min s (need - got)) = _
        rw [hmin]
      rw [hfc]
      have : need - (got + s) = need - got - s := by ring
      rw [this]
      rw [Prod.mk.injEq]
      exact ⟨rfl, by ring⟩

/-- Unfolding `fillCost` over a cons cell. -/
theorem fillCost_cons (p s need : ℚ) (rest : List (ℚ × ℚ)) :
    fillCost ((p, s) :: rest) need =
      min s need * p + fillCost rest (need - min s need) := rfl

/-- Marginal-cost lower bound: over levels all priced at least `m`, filling
`b` instead of `a` shares costs at least `m * (b - a)` more. -/
theorem fillCost_marginal (vals : List (ℚ × ℚ)) :
    ∀ m a b : ℚ, (∀ v ∈ vals, 0 ≤ v.2) → (∀ v ∈ vals, m ≤ v.1) →
      0 ≤ a → a ≤ b → b ≤ totalSize vals →
      m * (b - a) ≤ fillCost vals b - fillCost vals a := by
  induction vals with
  | nil =>
    intro m a b hs hp ha hab htot
    have h0 : totalSize [] = 0 := rfl
    rw [h0] at htot
    have : a = b := le_antisymm hab (by linarith)
    rw [this]
    simp
  | cons v rest ih =>
    intro m a b hs hp ha hab htot
    obtain ⟨p, s⟩ := v
    have hsv : (0:ℚ) ≤ s := hs (p, s) (List.mem_cons_self _ _)
    have hpv : m ≤ p := hp (p, s) (List.mem_cons_self _ _)
    have hs2 : ∀ v ∈ rest, 0 ≤ v.2 := fun v hv => hs v (List.mem_cons_of_mem _ hv)
    have hp2 : ∀ v ∈ rest, m ≤ v.1 := fun v hv => hp v (List.mem_cons_of_mem _ hv)
    have htot2 : b ≤ s + totalSize rest := htot
    have hz : fillCost rest 0 = 0 := fillCost_zero rest hs2
    by_cases hbs : b ≤ s
    · rw [fillCost_cons, fillCost_cons]
      rw [min_eq_right hbs, min_eq_right (le_trans hab hbs)]
      rw [sub_self, sub_self, hz]
      have : b * p + 0 - (a * p + 0) = p * (b - a) := by ring
      rw [this]
      exact mul_le_mul_of_nonneg_right hpv (by linarith)
    · push_neg at hbs
      by_cases has : a ≤ s
      · rw [fillCost_cons, fillCost_cons]
        rw [min_eq_left (le_of_lt hbs), min_eq_right has]
        rw [sub_self, hz]
        have hmarg := ih m 0 (b - s) hs2 hp2 (le_refl 0) (by linarith) (by linarith)
        rw [hz] at hmarg
        nlinarith [hmarg]
      · push_neg at has
        rw [fillCost_cons, fillCost_cons]
        rw [min_eq_left (le_of_lt hbs), min_eq_left (le_of_lt has)]
        have hmarg := ih m (a - s) (b - s) hs2 hp2 (by linarith) (by linarith) (by linarith)
        have : b - s - (a - s) = b - a := by ring
        rw [this] at hmarg
        linarith

/-- Average-cost monotonicity of the greedy walk over a price-sorted book:
`fillCost q1 / q1 ≤ fillCost q2 / q2` in cross-multiplied form. -/
theorem fillCost_avg_mono (vals : List (ℚ × ℚ)) :
    ∀ q1 q2 : ℚ, (∀ v ∈ vals, 0 ≤ v.2) → sortedByPrice vals →
      0 < q1 → q1 ≤ q2 → q2 ≤ totalSize vals →
      fillCost vals q1 * q2 ≤ fillCost vals q2 * q1 := by
  induction vals with
  | nil =>
    intro q1 q2 hs hsort hq1 hq12 htot
    have h0 : totalSize [] = 0 := rfl
    rw [h0] at htot
    linarith
  | cons v rest ih =>
    intro q1 q2 hs hsort hq1 hq12 htot
    obtain ⟨p, s⟩ := v
    have hsv : (0:ℚ) ≤ s := hs (p, s) (List.mem_cons_self _ _)
    have hs2 : ∀ v ∈ rest, 0 ≤ v.2 := fun v hv => hs v (List.mem_cons_of_mem _ hv)
    rw [sortedByPrice, List.pairwise_cons] at hsort
    have hp2 : ∀ v ∈ rest, p ≤ v.1 := fun v hv => hsort.1 v hv
    have hsort2 : sortedByPrice rest := hsort.2
    have htot2 : q2 ≤ s + totalSize rest := htot
    have hz : fillCost rest 0 = 0 := fillCost_zero rest hs2
    by_cases h2s : q2 ≤ s
    · rw [fillCost_cons, fillCost_cons]
      rw [min_eq_right h2s, min_eq_right (le_trans hq12 h2s)]
      rw [sub_self, sub_self, hz]
      ring_nf
      nlinarith
    · push_neg at h2s
      by_cases h1s : q1 ≤ s
      · rw [fillCost_cons, fillCost_cons]
        rw [min_eq_left (le_of_lt h2s), min_eq_right h1s]
        rw [sub_self, hz]
        have hmarg := fillCost_marginal rest p 0 (q2 - s) hs2 hp2 (le_refl 0)
          (by linarith) (by linarith)
        rw [hz] at hmarg
        nlinarith [hmarg]
      · push_neg at h1s
        rw [fillCost_cons, fillCost_cons]
        rw [min_eq_left (le_of_lt h2s), min_eq_left (le_of_lt h1s)]
        have hih := ih (q1 - s) (q2 - s) hs2 hsort2 (by linarith) (by linarith) (by linarith)
        have hmarg := fillCost_marginal rest p (q1 - s) (q2 - s) hs2 hp2
          (by linarith) (by linarith) (by linarith)
        nlinarith [hih, hmarg]

/-- Inserting below the head of a price-sorted list puts the element in
front. -/
theorem sortLevels_sorted_eq (vals : List (ℚ × ℚ)) (h : sortedByPrice vals) :
    sortLevels vals = vals := by
  induction vals with
  | nil => rfl
  | cons v rest ih =>
    rw [sortedByPrice, List.pairwise_cons] at h
    have hrest : sortLevels rest = rest := ih h.2
    show insertLevel v (sortLevels rest) = v :: rest
    rw [hrest]
    cases rest with
    | nil => rfl
    | cons w ws =>
      show (if v.1 ≤ w.1 then v :: w :: ws else w :: insertLevel v ws) = v :: w :: ws
      rw [if_pos (h.1 w (List.mem_cons_self _ _))]

/-- C1 (amended): the estimator walks the levels in the order given (it
does not sort), so consider a book already sorted by ascending price with
positive prices and sizes.  For every target `q` with `0 < q ≤ total
available shares` such that no proper prefix of the sizes lands in the
`1e-9` early-break window `[q - 1e-9, q)`, `vwap_cents_for_shares` returns
exactly `(cost of the cheapest q shares) / q * 100` — the cheapest cost
being the greedy cost over the price-sorted book — and for the fixed book
that price is monotonically non-decreasing as `q` increases, both as a
formula and between any two returned values. -/
theorem vwap_for_shares_spec (vals : List (ℚ × ℚ))
    (hpos : posLevels vals) (hsort : sortedByPrice vals) :
    (∀ q : ℚ, 0 < q → q ≤ totalSize vals → prefixOk vals q = true →
      vwap_cents_for_shares (vals.map mkLevel) q = some (cheapestCost vals q / q * 100))
    ∧ (∀ q1 q2 : ℚ, 0 < q1 → q1 ≤ q2 → q2 ≤ totalSize vals →
        cheapestCost vals q1 / q1 * 100 ≤ cheapestCost vals q2 / q2 * 100)
    ∧ (∀ q1 q2 v1 v2 : ℚ, 0 < q1 → q1 ≤ q2 → q2 ≤ totalSize vals →
        prefixOk vals q1 = true → prefixOk vals q2 = true →
        vwap_cents_for_shares (vals.map mkLevel) q1 = some v1 →
        vwap_cents_for_shares (vals.map mkLevel) q2 = some v2 → v1 ≤ v2) := by
  have hcheap : ∀ q, cheapestCost vals q = fillCost vals q := by
    intro q
    rw [cheapestCost, sortLevels_sorted_eq vals hsort]
  have heval : ∀ q : ℚ, 0 < q → q ≤ totalSize vals → prefixOk vals q = true →
      vwap_cents_for_shares (vals.map mkLevel) q = some (cheapestCost vals q / q * 100) := by
    intro q hq htot hpre
    have hw := walkShares_exact vals q 0 0 hpos hq (by linarith) (by simpa using hpre)
    rw [vwap_cents_for_shares, if_neg (not_le.2 hq)]
    simp only [hw]
    rw [if_neg]
    · rw [hcheap q]
      norm_num
    · push_neg
      have : (0:ℚ) < eps6 := by norm_num [eps6]
      linarith
  have hmono : ∀ q1 q2 : ℚ, 0 < q1 → q1 ≤ q2 → q2 ≤ totalSize vals →
      cheapestCost vals q1 / q1 * 100 ≤ cheapestCost vals q2 / q2 * 100 := by
    intro q1 q2 hq1 hq12 htot
    rw [hcheap q1, hcheap q2]
    have hq2 : (0:ℚ) < q2 := lt_of_lt_of_le hq1 hq12
    have hcross := fillCost_avg_mono vals q1 q2
      (fun v hv => le_of_lt (hpos v hv).2) hsort hq1 hq12 htot
    have hdiv : fillCost vals q1 / q1 ≤ fillCost vals q2 / q2 :=
      (div_le_div_iff₀ hq1 hq2).2 hcross
    nlinarith [hdiv]
  refine ⟨heval, hmono, ?_⟩
  intro q1 q2 v1 v2 hq1 hq12 htot hpre1 hpre2 hv1 hv2
  rw [heval q1 hq1 (le_trans hq12 htot) hpre1] at hv1
  rw [heval q2 (lt_of_lt_of_le hq1 hq12) htot hpre2] at hv2
  cases hv1
  cases hv2
  exact hmono q1 q2 hq1 hq12 htot

/-- Closed instance of `vwap_for_shares_spec` on the sorted book
[(0.20, 10), (0.50, 10)]: buying 10 shares costs 20 cents each, buying 15
costs 30 cents each — non-decreasing in the quantity. -/
theorem vwap_for_shares_spec_witness :
    posLevels [(1/5, 10), (1/2, 10)] ∧ (0:ℚ) < 10 ∧ (10:ℚ) ≤ totalSize [(1/5, 10), (1/2, 10)] ∧
      vwap_cents_for_shares ([(1/5, 10), (1/2, 10)].map mkLevel) 10 = some 20 ∧
      vwap_cents_for_shares ([(1/5, 10), (1/2, 10)].map mkLevel) 15 = some 30 := by
  have hpos : posLevels [((1:ℚ)/5, (10:ℚ)), (1/2, 10)] := by
    intro v hv
    simp only [List.mem_cons, List.mem_singleton] at hv
    rcases hv with rfl | hv
    · norm_num
    · simp only [List.mem_cons, List.not_mem_nil, or_false] at hv
      rw [hv]
      norm_num
  have hsort : sortedByPrice [((1:ℚ)/5, (10:ℚ)), (1/2, 10)] := by
    rw [sortedByPrice]
    refine List.Pairwise.cons ?_ ?_
    · intro v hv
      simp only [List.mem_cons, List.not_mem_nil, or_false] at hv
      rw [hv]
      norm_num
    · exact List.pairwise_singleton _ _
  have htot : totalSize [((1:ℚ)/5, (10:ℚ)), (1/2, 10)] = 20 := by
    norm_num [totalSize]
  have h := (vwap_for_shares_spec [(1/5, 10), (1/2, 10)] hpos hsort).1
  refine ⟨hpos, by norm_num, by rw [htot]; norm_num, ?_, ?_⟩
  · have h10 := h 10 (by norm_num) (by rw [htot]; norm_num)
      (by norm_num [prefixOk, eps9])
    rw [h10]
    norm_num [cheapestCost, sortLevels, insertLevel, fillCost, min_def]
  · have h15 := h 15 (by norm_num) (by rw [htot]; norm_num)
      (by norm_num [prefixOk, eps9])
    rw [h15]
    norm_num [cheapestCost, sortLevels, insertLevel, fillCost, min_def]

/-- C1 counterexample to the claim as stated: the estimator does not sort,
so on the unsorted book [(0.50, 10), (0.20, 10)] buying 10 shares is priced
at 50 cents although the cheapest 10 shares cost 20 cents each (and the
reversed book returns 20): the result is neither the cheapest-cost price
nor independent of the order in which the venue returns the levels. -/
theorem vwap_for_shares_order_dependent :
    vwap_cents_for_shares [mkLevel (1/2, 10), mkLevel (1/5, 10)] 10 = some 50 ∧
      cheapestCost [(1/2, 10), (1/5, 10)] 10 / 10 * 100 = 20 ∧
      vwap_cents_for_shares [mkLevel (1/5, 10), mkLevel (1/2, 10)] 10 = some 20 := by
  refine ⟨?_, ?_, ?_⟩
  · norm_num [vwap_cents_for_shares, walkSharesWith, levelPS, mkLevel, eps9, eps6, min_def]
  · norm_num [cheapestCost, sortLevels, insertLevel, fillCost, min_def]
  · norm_num [vwap_cents_for_shares, walkSharesWith, levelPS, mkLevel, eps9, eps6, min_def]


end Polybot
